import Mathlib

/-!
# Verification of the image render-cache-response pipeline

Shallow embedding of the core of `src/server/server.py` and
`src/server/tools.py`: dimension resolution per fit mode, the scaler,
the TTL result cache, the memoizing cache decorator, and the
conditional-response emitter (`BytesIOResponse`).

Times are modelled as integer epoch milliseconds.  Python `float`
division followed by `floor` is modelled as exact rational division
followed by `Nat.floor`.  The `md5` hash is modelled as an abstract
function parameter `hash : String → String`.
-/

/-- `CACHE_TIME_IN_SEC = 60 * 60` from `server.py`. -/
def CACHE_TIME_IN_SEC : ℕ := 60 * 60

/-- Little-endian base-10 digit list of `n`, with explicit fuel so the
recursion is structural (the fuel `n` itself always suffices). -/
def digitsRev : ℕ → ℕ → List ℕ
  | 0, _ => []
  | _ + 1, 0 => []
  | fuel + 1, n => (n % 10) :: digitsRev fuel (n / 10)

/-- Decimal rendering of a natural number, as Python's `f"{n}"` /
`str(n)` produces for a non-negative integer: most-significant digit
first, no leading zeros, and `"0"` for zero. -/
def natStr (n : ℕ) : String :=
  if n = 0 then "0" else String.mk (((digitsRev n n).map Nat.digitChar).reverse)

/-- The fit-mode enum `Mode` of `server.py`. -/
inductive Mode
  | auto
  | match_height
  | match_width
  | stretch
deriving DecidableEq

/-- The string value of each `Mode` member, as interpolated into the
cache key by `f"{mode}"`. -/
def modeStr : Mode → String
  | Mode.auto => "auto"
  | Mode.match_height => "match_height"
  | Mode.match_width => "match_width"
  | Mode.stretch => "stretch"

/-- `cache_key: str = f"{target_w}_{target_h}_{mode}"` (server.py line 145),
on the clamped non-negative dimensions. -/
def cache_key (target_w target_h : ℕ) (m : Mode) : String :=
  natStr target_w ++ "_" ++ natStr target_h ++ "_" ++ modeStr m

namespace Dims

/-- The `match_width` lambda of `create_scaled_image`:
`(tw, floor(tw * float(sh) / float(sw)))`. -/
def match_width (source_w source_h target_w _target_h : ℕ) : ℕ × ℕ :=
  (target_w, ⌊((target_w : ℚ) * (source_h : ℚ)) / (source_w : ℚ)⌋₊)

/-- The `match_height` lambda of `create_scaled_image`:
`(floor(th * float(sw) / float(sh)), th)` (the second component is the
enclosing `_target_h`, which at the single call site equals the lambda's
own target-height argument). -/
def match_height (source_w source_h _target_w target_h : ℕ) : ℕ × ℕ :=
  (⌊((target_h : ℚ) * (source_w : ℚ)) / (source_h : ℚ)⌋₊, target_h)

/-- The `stretch` lambda of `create_scaled_image`: `(tw, th)`. -/
def stretch (_source_w _source_h target_w target_h : ℕ) : ℕ × ℕ :=
  (target_w, target_h)

/-- The `auto` lambda of `create_scaled_image`: `match_width` when
`sw > sh`, else `match_height`. -/
def auto (source_w source_h target_w target_h : ℕ) : ℕ × ℕ :=
  if source_w > source_h then match_width source_w source_h target_w target_h
  else match_height source_w source_h target_w target_h

/-- The `switch` dispatch table of `create_scaled_image`, applied to
`(source_w, source_h, _target_w, _target_h)`. -/
def resolve (m : Mode) (source_w source_h target_w target_h : ℕ) : ℕ × ℕ :=
  match m with
  | Mode.match_width => match_width source_w source_h target_w target_h
  | Mode.match_height => match_height source_w source_h target_w target_h
  | Mode.stretch => stretch source_w source_h target_w target_h
  | Mode.auto => auto source_w source_h target_w target_h

end Dims

/-- The dimension clamp of the `get` handler (server.py lines 85-86):
`max(0, min(v, 4096 * 2))`. -/
def clamp_dim (v : ℤ) : ℤ := max 0 (min v (4096 * 2))

/-- The served `max_age` (server.py lines 186-193):
`int(abs((now - (modification_date + timedelta(seconds=CACHE_TIME_IN_SEC))).total_seconds()))`,
with both instants in epoch milliseconds. -/
def max_age_of (now modification_date : ℤ) : ℕ :=
  (now - (modification_date + (CACHE_TIME_IN_SEC : ℤ) * 1000)).natAbs / 1000

/-- Modelled from the spec: the freshness formula the spec prescribes for
`Cache-Control`, `N = max(0, TTL_seconds - (now - rendered_at))`, with the
instants in epoch milliseconds and the age converted to whole seconds. -/
def max_age_spec_formula (now modification_date : ℤ) : ℤ :=
  max 0 ((CACHE_TIME_IN_SEC : ℤ) - (now - modification_date) / 1000)

/-- `create_scaled_image` (server.py lines 93-143).  `decode` models
`Image.open` returning the source size of the raw bytes, and
`resize_encode` models `Image.resize` + PNG `save` as a pure function of
the raw bytes and the resolved dimensions; both are abstract parameters,
as is the backing file store.  The function takes no cache argument:
it neither reads nor writes the result cache. -/
def create_scaled_image (decode : List ℕ → ℕ × ℕ)
    (resize_encode : List ℕ → ℕ → ℕ → List ℕ)
    (file_store : String → List ℕ)
    (target_w target_h : ℕ) (mode : Mode) (fname : String) : List ℕ :=
  let raw := file_store fname
  let s := decode raw
  let r := Dims.resolve mode s.1 s.2 target_w target_h
  resize_encode raw r.1 r.2

/-- Response headers, as an ordered association list (Starlette stores
lowercase raw header names; `append` adds at the end). -/
abbrev Headers : Type := List (String × String)

/-- Value of header `name`, if present (first occurrence). -/
def getHeader (hs : Headers) (name : String) : Option String :=
  (hs.find? (fun p => p.1 == name)).map (fun p => p.2)

/-- `MutableHeaders.setdefault`: add `(name, value)` only when `name` is
absent. -/
def setdefault (hs : Headers) (name value : String) : Headers :=
  if (hs.find? (fun p => p.1 == name)).isSome then hs else hs ++ [(name, value)]

/-- The ETag base string of `BytesIOResponse.set_headers`:
`str(int(last_modified.timestamp() * 1000)) + "-" + str(nbytes)`. -/
def etag_base (modification_ms nbytes : ℕ) : String :=
  natStr modification_ms ++ "-" ++ natStr nbytes

/-- The ETag of `BytesIOResponse.set_headers`: the digest (`md5`,
modelled by the abstract `hash`) of the base string. -/
def etag_of (hash : String → String) (modification_ms nbytes : ℕ) : String :=
  hash (etag_base modification_ms nbytes)

/-- `BytesIOResponse.set_headers` (tools.py lines 82-96): when a
`last_modified` instant is present, `setdefault` the `last-modified`
(RFC-formatted via the abstract `formatdate`) and `etag` headers; always
`setdefault` `content-length` to the buffer's byte count. -/
def set_headers (hash : String → String) (formatdate : ℕ → String)
    (hs : Headers) (last_modified : Option ℕ) (nbytes : ℕ) : Headers :=
  let content_length := natStr nbytes
  let hs1 :=
    match last_modified with
    | some lm =>
        setdefault (setdefault hs "last-modified" (formatdate lm)) "etag"
          (etag_of hash lm nbytes)
    | none => hs
  setdefault hs1 "content-length" content_length

/-- A stored image record as read by the `get` handler
(`filename`, `oryginal_filename`, `created` in epoch ms). -/
structure ImageRecord where
  filename : String
  filename_oryginal : String
  created : ℕ
deriving DecidableEq

/-- The tuple stored in the aiocache result cache by the `get` handler:
`(fname, creation_date, modification_date, oryg_filename, img_byte_arr)`. -/
structure CacheEntry where
  fname : String
  creation_date : ℕ
  modification_date : ℕ
  oryg_filename : String
  img_bytes : List ℕ
deriving DecidableEq

/-- The aiocache `Cache(ttl=CACHE_TIME_IN_SEC)` state: each key maps to
the instant it was set and the stored tuple. -/
def CacheState : Type := String → Option (ℕ × CacheEntry)

/-- aiocache lookup: an entry is visible while its age is below the TTL;
past the TTL it is expired. -/
def cache_get (st : CacheState) (key : String) (now : ℕ) : Option CacheEntry :=
  match st key with
  | some te =>
      if (now : ℤ) - (te.1 : ℤ) < (CACHE_TIME_IN_SEC : ℤ) * 1000 then some te.2 else none
  | none => none

/-- aiocache store: unconditionally replace the entry for `key`, stamped
with `now`. -/
def cache_set (st : CacheState) (key : String) (now : ℕ) (e : CacheEntry) : CacheState :=
  fun k => if k = key then some (now, e) else st k

/-- The served response: payload bytes and headers. -/
structure RenderResponse where
  payload : List ℕ
  headers : Headers
deriving DecidableEq

/-- The `Content-disposition` value built by the `get` handler
(server.py line 203). -/
def content_disposition (formatdate : ℕ → String)
    (now target_w target_h : ℕ) (e : CacheEntry) : String :=
  "inline;filename=\"" ++ e.fname ++ "_" ++ natStr target_w ++ "x" ++ natStr target_h
    ++ "_" ++ e.oryg_filename
    ++ "\";creation-date=\"" ++ formatdate e.creation_date
    ++ "\";modification-date=\"" ++ formatdate e.modification_date
    ++ "\";read-date=\"" ++ formatdate now ++ "\""

/-- Building the `BytesIOResponse` from a cache entry (server.py lines
184-207 plus `BytesIOResponse.__init__`/`set_headers`): caller headers
are `Content-disposition` and `Cache-Control: max-age=...`;
`set_headers` then adds `last-modified`, `etag`, `content-length`. -/
def respond (hash : String → String) (formatdate : ℕ → String)
    (now target_w target_h : ℕ) (e : CacheEntry) : RenderResponse :=
  let maxAge := max_age_of (now : ℤ) (e.modification_date : ℤ)
  let base : Headers :=
    [("content-disposition", content_disposition formatdate now target_w target_h e),
     ("cache-control", "max-age=" ++ natStr maxAge)]
  ⟨e.img_bytes, set_headers hash formatdate base (some e.modification_date) e.img_bytes.length⟩

/-- The `GET /images/{target_w}x{target_h}` handler (server.py lines
82-207) at one instant `now`: clamp the dimensions, look up the cache
key; on a hit serve the stored tuple unchanged; on a miss take the
selected `row` (404 when the store is empty), invoke the scaler, store
the new entry stamped `now`, and serve it. -/
def handle (hash : String → String) (formatdate : ℕ → String)
    (decode : List ℕ → ℕ × ℕ) (resize_encode : List ℕ → ℕ → ℕ → List ℕ)
    (file_store : String → List ℕ)
    (row : Option ImageRecord) (now : ℕ) (st : CacheState)
    (target_w target_h : ℤ) (m : Mode) : Except ℕ (RenderResponse × CacheState) :=
  let tw : ℕ := (clamp_dim target_w).toNat
  let th : ℕ := (clamp_dim target_h).toNat
  let key := cache_key tw th m
  match cache_get st key now with
  | some e => Except.ok (respond hash formatdate now tw th e, st)
  | none =>
    match row with
    | none => Except.error 404
    | some r =>
      let bytes := create_scaled_image decode resize_encode file_store tw th m r.filename
      let e : CacheEntry := ⟨r.filename, r.created, now, r.filename_oryginal, bytes⟩
      Except.ok (respond hash formatdate now tw th e, cache_set st key now e)

/-- Python-dict update `store[key][t] = v`: overwrite in place when the
time key exists, else append (insertion order preserved). -/
def dict_insert {V : Type} (l : List (ℕ × V)) (t : ℕ) (v : V) : List (ℕ × V) :=
  if l.any (fun e => e.1 == t) then l.map (fun e => if e.1 == t then (t, v) else e)
  else l ++ [(t, v)]

/-- One call of the `cached_func` closure produced by the memoizing
`cache` decorator (tools.py lines 23-53), for one decorated function:
`store` maps a call key to its dict of `(call_time, result)` entries.
The scan keeps fresh entries (`call_time - t < timeout_in_ms`), pops
stale ones, and sets `result` to the last fresh value; `if result:` is
Python truthiness, modelled by `truthy`; on a miss the freshly computed
`fresh_result` is stored at `call_time`.  Returns the call's result and
the updated store. -/
def cached_func_step {K V : Type} [DecidableEq K] (timeout_in_ms : ℕ)
    (truthy : V → Bool) (fresh_result : V) (key : K) (call_time : ℕ)
    (store : K → List (ℕ × V)) : V × (K → List (ℕ × V)) :=
  let kept := (store key).filter
    (fun e => decide ((call_time : ℤ) - (e.1 : ℤ) < (timeout_in_ms : ℤ)))
  match kept.getLast? with
  | some last =>
      if truthy last.2 then (last.2, fun k => if k = key then kept else store k)
      else (fresh_result,
        fun k => if k = key then dict_insert kept call_time fresh_result else store k)
  | none => (fresh_result,
      fun k => if k = key then dict_insert kept call_time fresh_result else store k)

/-- Python truthiness of an `int`. -/
def int_truthy (v : ℤ) : Bool := v != 0

/-- Value of a little-endian base-10 digit list (used to show decimal
rendering is injective). -/
def valRev : List ℕ → ℕ
  | [] => 0
  | d :: ds => d + 10 * valRev ds

/-! Concrete instantiations used by witnesses and counterexamples. -/

/-- A trivial date formatter. -/
def fd0 : ℕ → String := fun _ => ""

/-- A decoder reporting a 1x1 source. -/
def decode0 : List ℕ → ℕ × ℕ := fun _ => (1, 1)

/-- A resize-and-encode step returning an empty buffer. -/
def resize_encode0 : List ℕ → ℕ → ℕ → List ℕ := fun _ _ _ => []

/-- An empty backing file store. -/
def file_store0 : String → List ℕ := fun _ => []

/-- A one-byte backing file store. -/
def file_store1 : String → List ℕ := fun _ => [1]

/-- A concrete stored image record. -/
def rec0 : ImageRecord := ⟨"f", "o", 0⟩

/-- The cache entry the handler builds from `rec0` at time 0 with
`resize_encode0`. -/
def entry0 : CacheEntry := ⟨"f", 0, 0, "o", []⟩

/-- The empty result cache. -/
def empty_cache : CacheState := fun _ => none

/-- The result cache after one render of key `0x0`, `stretch` at time 0. -/
def st1con : CacheState := cache_set empty_cache (cache_key 0 0 Mode.stretch) 0 entry0

/-- A decorator store for key 0 holding a truthy value 7 stored at time 2. -/
def store_truthy : ℕ → List (ℕ × ℤ) := fun k => if k = 0 then [(2, (7 : ℤ))] else []

/-- A decorator store for key 0 holding the falsy value 0 stored at time 0. -/
def store_falsy : ℕ → List (ℕ × ℤ) := fun k => if k = 0 then [(0, (0 : ℤ))] else []

/-! ## Decimal rendering: digit bounds, round trip, injectivity -/

theorem digitsRev_lt_ten : ∀ (fuel n : ℕ), ∀ d ∈ digitsRev fuel n, d < 10 := by
  intro fuel
  induction fuel with
  | zero => intro n d hd; simp [digitsRev] at hd
  | succ f ih =>
    intro n d hd
    match n with
    | 0 => simp [digitsRev] at hd
    | m + 1 =>
      simp only [digitsRev, List.mem_cons] at hd
      rcases hd with h | h
      · subst h; exact Nat.mod_lt _ (by norm_num)
      · exact ih _ _ h

theorem valRev_digitsRev : ∀ (fuel n : ℕ), n ≤ fuel → valRev (digitsRev fuel n) = n := by
  intro fuel
  induction fuel with
  | zero => intro n hle; have : n = 0 := Nat.le_zero.mp hle; subst this; rfl
  | succ f ih =>
    intro n hle
    match n with
    | 0 => rfl
    | m + 1 =>
      have hlt : (m + 1) / 10 < m + 1 := Nat.div_lt_self (Nat.succ_pos m) (by norm_num)
      have hdle : (m + 1) / 10 ≤ f := by omega
      simp only [digitsRev, valRev, ih _ hdle]
      exact Nat.mod_add_div (m + 1) 10

theorem digitChar_inj_lt : ∀ d1, d1 < 10 → ∀ d2, d2 < 10 →
    Nat.digitChar d1 = Nat.digitChar d2 → d1 = d2 := by decide

theorem digitChar_not_sep : ∀ d, d < 10 →
    Nat.digitChar d ≠ '_' ∧ Nat.digitChar d ≠ '-' := by decide

theorem map_digitChar_inj : ∀ (l1 l2 : List ℕ), (∀ d ∈ l1, d < 10) → (∀ d ∈ l2, d < 10) →
    l1.map Nat.digitChar = l2.map Nat.digitChar → l1 = l2 := by
  intro l1
  induction l1 with
  | nil =>
    intro l2 _ _ h
    cases l2 with
    | nil => rfl
    | cons b t2 => simp at h
  | cons a t ih =>
    intro l2 h1 h2 h
    cases l2 with
    | nil => simp at h
    | cons b t2 =>
      simp only [List.map_cons, List.cons.injEq] at h
      have ha : a = b :=
        digitChar_inj_lt a (h1 a (List.mem_cons_self a t)) b (h2 b (List.mem_cons_self b t2)) h.1
      have ht : t = t2 := ih t2 (fun d hd => h1 d (List.mem_cons_of_mem a hd))
        (fun d hd => h2 d (List.mem_cons_of_mem b hd)) h.2
      rw [ha, ht]

theorem str_ext {s t : String} (h : s.data = t.data) : s = t := by
  cases s; cases t; exact congrArg String.mk h

theorem natStr_inj {m n : ℕ} (h : natStr m = natStr n) : m = n := by
  have hd := congrArg String.data h
  by_cases hm : m = 0 <;> by_cases hn : n = 0
  · rw [hm, hn]
  · exfalso
    rw [natStr, natStr, if_pos hm, if_neg hn] at hd
    have hrev : List.map Nat.digitChar (digitsRev n n) = ['0'] := by
      have := congrArg List.reverse hd
      simpa using this.symm
    have hzero : digitsRev n n = [0] := by
      have h0 : ([0] : List ℕ).map Nat.digitChar = ['0'] := rfl
      exact map_digitChar_inj _ _ (digitsRev_lt_ten n n) (by norm_num) (hrev.trans h0.symm)
    have hval := valRev_digitsRev n n le_rfl
    rw [hzero] at hval
    exact hn (by simpa [valRev] using hval.symm)
  · exfalso
    rw [natStr, natStr, if_neg hm, if_pos hn] at hd
    have hrev : List.map Nat.digitChar (digitsRev m m) = ['0'] := by
      have := congrArg List.reverse hd
      simpa using this
    have hzero : digitsRev m m = [0] := by
      have h0 : ([0] : List ℕ).map Nat.digitChar = ['0'] := rfl
      exact map_digitChar_inj _ _ (digitsRev_lt_ten m m) (by norm_num) (hrev.trans h0.symm)
    have hval := valRev_digitsRev m m le_rfl
    rw [hzero] at hval
    exact hm (by simpa [valRev] using hval.symm)
  · rw [natStr, natStr, if_neg hm, if_neg hn] at hd
    have hrev := congrArg List.reverse hd
    simp only [List.reverse_reverse] at hrev
    have hdig : digitsRev m m = digitsRev n n :=
      map_digitChar_inj _ _ (digitsRev_lt_ten m m) (digitsRev_lt_ten n n) hrev
    have h1 := valRev_digitsRev m m le_rfl
    have h2 := valRev_digitsRev n n le_rfl
    rw [← h1, ← h2, hdig]

theorem natStr_mem_digit {n : ℕ} {c : Char} (hc : c ∈ (natStr n).data) :
    ∃ d, d < 10 ∧ Nat.digitChar d = c := by
  unfold natStr at hc
  by_cases h : n = 0
  · rw [if_pos h] at hc
    simp at hc
    exact ⟨0, by norm_num, hc.symm⟩
  · rw [if_neg h] at hc
    simp only [List.mem_reverse] at hc
    have hc2 : c ∈ (digitsRev n n).map Nat.digitChar := by
      simpa using hc
    obtain ⟨d, hd, rfl⟩ := List.mem_map.mp hc2
    exact ⟨d, digitsRev_lt_ten n n d hd, rfl⟩

theorem natStr_no_underscore (n : ℕ) : '_' ∉ (natStr n).data := by
  intro hc
  obtain ⟨d, hd, he⟩ := natStr_mem_digit hc
  exact (digitChar_not_sep d hd).1 he

theorem natStr_no_dash (n : ℕ) : '-' ∉ (natStr n).data := by
  intro hc
  obtain ⟨d, hd, he⟩ := natStr_mem_digit hc
  exact (digitChar_not_sep d hd).2 he

theorem append_sep_inj (c : Char) : ∀ (a b x y : List Char), c ∉ a → c ∉ b →
    a ++ c :: x = b ++ c :: y → a = b ∧ x = y := by
  intro a
  induction a with
  | nil =>
    intro b x y _ hb h
    cases b with
    | nil => simpa using h
    | cons d t =>
      exfalso
      simp only [List.nil_append, List.cons_append, List.cons.injEq] at h
      exact hb (h.1 ▸ List.mem_cons_self d t)
  | cons d t ih =>
    intro b x y ha hb h
    cases b with
    | nil =>
      exfalso
      simp only [List.cons_append, List.nil_append, List.cons.injEq] at h
      exact ha (h.1 ▸ List.mem_cons_self d t)
    | cons d2 t2 =>
      simp only [List.cons_append, List.cons.injEq] at h
      have ht := ih t2 x y (fun hm => ha (List.mem_cons_of_mem d hm))
        (fun hm => hb (List.mem_cons_of_mem d2 hm)) h.2
      exact ⟨by rw [h.1, ht.1], ht.2⟩

theorem modeStr_inj : ∀ m1 m2 : Mode, modeStr m1 = modeStr m2 → m1 = m2 := by
  intro m1 m2 h
  cases m1 <;> cases m2 <;> first | rfl | exact absurd h (by decide)

theorem cache_key_data (w h : ℕ) (m : Mode) :
    (cache_key w h m).data
      = (natStr w).data ++ '_' :: ((natStr h).data ++ '_' :: (modeStr m).data) := by
  simp [cache_key, String.data_append]

/-- C4: the cache-key function is a deterministic injection on request
triples: `cache_key w1 h1 m1 = cache_key w2 h2 m2` holds exactly when the
triples agree componentwise (so identical triples give the identical key
string, and triples differing in any component — including only in mode —
give distinct key strings). -/
theorem cache_key_deterministic_injective (w1 h1 : ℕ) (m1 : Mode) (w2 h2 : ℕ) (m2 : Mode) :
    cache_key w1 h1 m1 = cache_key w2 h2 m2 ↔ w1 = w2 ∧ h1 = h2 ∧ m1 = m2 := by
  constructor
  · intro h
    have hd := congrArg String.data h
    rw [cache_key_data, cache_key_data] at hd
    obtain ⟨hw, rest⟩ := append_sep_inj '_' _ _ _ _
      (natStr_no_underscore w1) (natStr_no_underscore w2) hd
    obtain ⟨hh, hm⟩ := append_sep_inj '_' _ _ _ _
      (natStr_no_underscore h1) (natStr_no_underscore h2) rest
    exact ⟨natStr_inj (str_ext hw), natStr_inj (str_ext hh), modeStr_inj _ _ (str_ext hm)⟩
  · rintro ⟨rfl, rfl, rfl⟩
    rfl

/-- Rational floor of `a * b / c` over naturals is natural division. -/
theorem floor_mul_div_eq (a b c : ℕ) : ⌊((a : ℚ) * (b : ℚ)) / (c : ℚ)⌋₊ = a * b / c := by
  rw [show ((a : ℚ) * (b : ℚ)) = ((a * b : ℕ) : ℚ) by push_cast; ring]
  rw [Nat.floor_div_nat, Nat.floor_natCast]

/-- C2: dimension resolution per fit mode: `stretch` gives the target
exactly; `match_width` gives `(w, floor(w*sh/sw))`; `match_height` gives
`(floor(h*sw/sh), h)` (floors are truncation toward zero, i.e. natural
division); `auto` gives the `match_width` result when `sw > sh` and the
`match_height` result otherwise. -/
theorem resolve_dimension_spec (source_w source_h target_w target_h : ℕ)
    (_hsw : 0 < source_w) (_hsh : 0 < source_h)
    (_htw : target_w ≤ 8192) (_hth : target_h ≤ 8192) :
    Dims.resolve Mode.stretch source_w source_h target_w target_h = (target_w, target_h) ∧
    Dims.resolve Mode.match_width source_w source_h target_w target_h
      = (target_w, target_w * source_h / source_w) ∧
    Dims.resolve Mode.match_height source_w source_h target_w target_h
      = (target_h * source_w / source_h, target_h) ∧
    Dims.resolve Mode.auto source_w source_h target_w target_h
      = (if source_h < source_w
         then Dims.resolve Mode.match_width source_w source_h target_w target_h
         else Dims.resolve Mode.match_height source_w source_h target_w target_h) := by
  refine ⟨rfl, ?_, ?_, ?_⟩
  · show Dims.match_width source_w source_h target_w target_h = _
    rw [Dims.match_width, floor_mul_div_eq]
  · show Dims.match_height source_w source_h target_w target_h = _
    rw [Dims.match_height, floor_mul_div_eq]
  · show Dims.auto source_w source_h target_w target_h = _
    rw [Dims.auto]
    rfl

/-- Witness for C2 at source 800x400, target 600x500. -/
theorem resolve_dimension_spec_witness :
    Dims.resolve Mode.stretch 800 400 600 500 = (600, 500) ∧
    Dims.resolve Mode.match_width 800 400 600 500 = (600, 600 * 400 / 800) ∧
    Dims.resolve Mode.match_height 800 400 600 500 = (500 * 800 / 400, 500) ∧
    Dims.resolve Mode.auto 800 400 600 500
      = (if (400 : ℕ) < 800
         then Dims.resolve Mode.match_width 800 400 600 500
         else Dims.resolve Mode.match_height 800 400 600 500) :=
  resolve_dimension_spec 800 400 600 500 (by norm_num) (by norm_num) (by norm_num) (by norm_num)

/-- C1: the served `max_age` is computed with an absolute value, not a
clamp at zero: at entry age 3610 s (10 s past the 3600 s TTL) the code
serves `max-age=10` where the specified formula gives 0, and at age
7300 s it serves `max-age=3700`, exceeding the TTL itself; the formula
only agrees with the specification while the age is within the TTL
(e.g. age 0 gives 3600). -/
theorem max_age_abs_inflates_after_ttl :
    max_age_of 3610000 0 = 10 ∧ max_age_spec_formula 3610000 0 = 0 ∧
    (10 : ℕ) ≠ 0 ∧
    max_age_of 7300000 0 = 3700 ∧ max_age_spec_formula 7300000 0 = 0 ∧
    CACHE_TIME_IN_SEC < 3700 ∧
    max_age_of 0 0 = 3600 ∧ max_age_spec_formula 0 0 = 3600 := by
  refine ⟨by decide, by decide, by decide, by decide, by decide, by decide, by decide, by decide⟩

/-- C3 counterexample: a request with integer width 9000 > 8192 is not
rejected with a 400: the handler clamps it to 8192 and serves an image
(the render succeeds and is cached under the clamped key). -/
theorem oob_width_served_not_rejected :
    handle id fd0 decode0 resize_encode0 file_store0 (some rec0) 0 empty_cache
        9000 100 Mode.stretch
      = Except.ok (respond id fd0 0 8192 100 entry0,
          cache_set empty_cache (cache_key 8192 100 Mode.stretch) 0 entry0) := rfl

/-- C3 amended: integer dimensions are clamped into `[0, 8192]` by
`max(0, min(v, 4096*2))` — out-of-range integers are clamped, not
rejected — and whenever a record is available the handler serves an
image (it never returns an error for dimension reasons). -/
theorem dims_clamped_never_rejected (hash : String → String) (fd : ℕ → String)
    (decode : List ℕ → ℕ × ℕ) (resize_encode : List ℕ → ℕ → ℕ → List ℕ)
    (file_store : String → List ℕ) (r : ImageRecord) (now : ℕ) (st : CacheState)
    (w h : ℤ) (m : Mode) :
    clamp_dim w = max 0 (min w 8192) ∧
    0 ≤ clamp_dim w ∧ clamp_dim w ≤ 8192 ∧
    (8192 < w → clamp_dim w = 8192) ∧ (w < 0 → clamp_dim w = 0) ∧
    (handle hash fd decode resize_encode file_store (some r) now st w h m).isOk = true := by
  refine ⟨by norm_num [clamp_dim], ?_, ?_, ?_, ?_, ?_⟩
  · unfold clamp_dim; omega
  · unfold clamp_dim; omega
  · intro hw; unfold clamp_dim; omega
  · intro hw; unfold clamp_dim; omega
  · simp only [handle]
    rcases cache_get st (cache_key (clamp_dim w).toNat (clamp_dim h).toNat m) now with _ | e
    · rfl
    · rfl

/-! ## Header lemmas -/

theorem getHeader_append (hs1 hs2 : Headers) (name : String) :
    getHeader (hs1 ++ hs2) name = ((getHeader hs1 name).or (getHeader hs2 name)) := by
  unfold getHeader
  rw [List.find?_append]
  cases hf : hs1.find? (fun p => p.1 == name) <;> simp [hf, Option.or]

theorem getHeader_setdefault_preserve {hs : Headers} {name v : String}
    (h : getHeader hs name = some v) (name2 w : String) :
    getHeader (setdefault hs name2 w) name = some v := by
  unfold setdefault
  split
  · exact h
  · rw [getHeader_append, h]
    rfl

theorem getHeader_singleton_ne {name name2 w : String} (hne : name ≠ name2) :
    getHeader [(name2, w)] name = none := by
  unfold getHeader
  rw [List.find?_cons_of_neg]
  · rfl
  · simp only [beq_iff_eq]
    exact fun hc => hne hc.symm

theorem getHeader_setdefault_ne {hs : Headers} {name name2 : String}
    (hne : name ≠ name2) (w : String) :
    getHeader (setdefault hs name2 w) name = getHeader hs name := by
  unfold setdefault
  split
  · rfl
  · rw [getHeader_append, getHeader_singleton_ne hne]
    rcases getHeader hs name with _ | v <;> rfl

theorem getHeader_setdefault_self {hs : Headers} {name v : String}
    (h : getHeader hs name = none) :
    getHeader (setdefault hs name v) name = some v := by
  unfold setdefault
  have hfind : hs.find? (fun p => p.1 == name) = none := by
    unfold getHeader at h
    exact Option.map_eq_none'.mp h
  rw [hfind]
  simp only [Option.isSome_none, Bool.false_eq_true, if_false]
  rw [getHeader_append, h]
  unfold getHeader
  rw [List.find?_cons_of_pos]
  · rfl
  · simp

/-- C10: `set_headers` never overwrites a caller-supplied header: every
header present in `hs` keeps its exact value, and every header name other
than `content-length`, `last-modified` and `etag` is left untouched
(absent stays absent), whether or not a `last_modified` instant is
given. -/
theorem set_headers_preserves_caller_headers (hash : String → String) (fd : ℕ → String)
    (hs : Headers) (lm : Option ℕ) (nbytes : ℕ) :
    (∀ name v, getHeader hs name = some v →
       getHeader (set_headers hash fd hs lm nbytes) name = some v) ∧
    (∀ name, name ≠ "content-length" → name ≠ "last-modified" → name ≠ "etag" →
       getHeader (set_headers hash fd hs lm nbytes) name = getHeader hs name) := by
  constructor
  · intro name v h
    rcases lm with _ | t
    · exact getHeader_setdefault_preserve h _ _
    · exact getHeader_setdefault_preserve
        (getHeader_setdefault_preserve (getHeader_setdefault_preserve h _ _) _ _) _ _
  · intro name hcl hlm het
    rcases lm with _ | t
    · exact getHeader_setdefault_ne hcl _
    · rw [set_headers]
      rw [getHeader_setdefault_ne hcl, getHeader_setdefault_ne het,
        getHeader_setdefault_ne hlm]

/-- Witness for C10: a caller-supplied `cache-control` header survives
`set_headers` with its value unchanged. -/
theorem set_headers_preserves_caller_headers_witness :
    getHeader (set_headers id fd0 [("cache-control", "max-age=60")] (some 5) 3)
      "cache-control" = some "max-age=60" :=
  (set_headers_preserves_caller_headers id fd0 [("cache-control", "max-age=60")]
    (some 5) 3).1 "cache-control" "max-age=60" rfl

theorem getHeader_set_headers_etag (hash : String → String) (fd : ℕ → String)
    (hs : Headers) (lm nbytes : ℕ) (hnone : getHeader hs "etag" = none) :
    getHeader (set_headers hash fd hs (some lm) nbytes) "etag"
      = some (etag_of hash lm nbytes) := by
  rw [set_headers]
  rw [getHeader_setdefault_ne (show "etag" ≠ "content-length" by decide)]
  refine getHeader_setdefault_self ?_
  rw [getHeader_setdefault_ne (show "etag" ≠ "last-modified" by decide), hnone]

theorem etag_base_inj {lm1 n1 lm2 n2 : ℕ} (h : etag_base lm1 n1 = etag_base lm2 n2) :
    lm1 = lm2 ∧ n1 = n2 := by
  have hd := congrArg String.data h
  simp only [etag_base, String.data_append] at hd
  have hd2 : (natStr lm1).data ++ '-' :: (natStr n1).data
      = (natStr lm2).data ++ '-' :: (natStr n2).data := by
    simpa using hd
  obtain ⟨h1, h2⟩ := append_sep_inj '-' _ _ _ _ (natStr_no_dash lm1) (natStr_no_dash lm2) hd2
  exact ⟨natStr_inj (str_ext h1), natStr_inj (str_ext h2)⟩

/-- C6: when a `last_modified` instant is given and the caller supplied
no `etag`, the response's `etag` header is the hash of the entry's
`rendered_at` milliseconds concatenated (with a dash) with the payload's
byte length; it is stable for an unchanged entry and (for a collision-free
digest) changes whenever the timestamp or the byte length changes. -/
theorem etag_from_timestamp_and_length (hash : String → String)
    (hinj : Function.Injective hash) (fd : ℕ → String) (hs : Headers)
    (hnone : getHeader hs "etag" = none) (lm nbytes lm1 n1 lm2 n2 : ℕ) :
    getHeader (set_headers hash fd hs (some lm) nbytes) "etag"
      = some (hash (natStr lm ++ "-" ++ natStr nbytes)) ∧
    (lm1 = lm2 → n1 = n2 → etag_of hash lm1 n1 = etag_of hash lm2 n2) ∧
    (lm1 ≠ lm2 ∨ n1 ≠ n2 → etag_of hash lm1 n1 ≠ etag_of hash lm2 n2) := by
  refine ⟨getHeader_set_headers_etag hash fd hs lm nbytes hnone, ?_, ?_⟩
  · intro h1 h2
    rw [h1, h2]
  · intro hne heq
    obtain ⟨h1, h2⟩ := etag_base_inj (hinj heq)
    rcases hne with h | h
    · exact h h1
    · exact h h2

/-- Witness for C6: with the identity digest, entries differing in byte
length get different ETags. -/
theorem etag_from_timestamp_and_length_witness :
    etag_of id 1 2 ≠ etag_of id 1 3 := by
  have h := etag_from_timestamp_and_length id Function.injective_id fd0 [] rfl 5 3 1 2 1 3
  exact h.2.2 (Or.inr (by decide))

/-! ## The handler and idempotence of cached renders -/

theorem base_headers_no_etag (a b : String) :
    getHeader [("content-disposition", a), ("cache-control", b)] "etag" = none := by
  unfold getHeader
  rw [List.find?_cons_of_neg _ (by simp), List.find?_cons_of_neg _ (by simp)]
  rfl

theorem cache_get_some (st : CacheState) (key : String) (now : ℕ) (te : ℕ × CacheEntry)
    (hsk : st key = some te) :
    cache_get st key now
      = if (now : ℤ) - (te.1 : ℤ) < (CACHE_TIME_IN_SEC : ℤ) * 1000
        then some te.2 else none := by
  unfold cache_get
  rw [hsk]

theorem respond_etag (hash : String → String) (fd : ℕ → String)
    (now tw th : ℕ) (e : CacheEntry) :
    getHeader (respond hash fd now tw th e).headers "etag"
      = some (etag_of hash e.modification_date e.img_bytes.length) := by
  unfold respond
  exact getHeader_set_headers_etag hash fd _ _ _ (base_headers_no_etag _ _)

theorem handle_ok_entry {hash : String → String} {fd : ℕ → String}
    {decode : List ℕ → ℕ × ℕ} {resize_encode : List ℕ → ℕ → ℕ → List ℕ}
    {file_store : String → List ℕ} {row : Option ImageRecord} {now : ℕ}
    {st : CacheState} {w h : ℤ} {m : Mode} {r : RenderResponse} {st' : CacheState}
    (hok : handle hash fd decode resize_encode file_store row now st w h m
      = Except.ok (r, st')) :
    ∃ t0 e, st' (cache_key (clamp_dim w).toNat (clamp_dim h).toNat m) = some (t0, e) ∧
      r = respond hash fd now (clamp_dim w).toNat (clamp_dim h).toNat e := by
  simp only [handle] at hok
  rcases hget : cache_get st (cache_key (clamp_dim w).toNat (clamp_dim h).toNat m) now
    with _ | e
  · rw [hget] at hok
    rcases row with _ | rec
    · exact absurd hok (by simp)
    · simp only [Except.ok.injEq, Prod.mk.injEq] at hok
      obtain ⟨hr, hst⟩ := hok
      refine ⟨now, _, ?_, hr.symm⟩
      rw [← hst]
      simp [cache_set]
  · rw [hget] at hok
    simp only [Except.ok.injEq, Prod.mk.injEq] at hok
    obtain ⟨hr, hst⟩ := hok
    rcases hsk : st (cache_key (clamp_dim w).toNat (clamp_dim h).toNat m) with _ | te
    · unfold cache_get at hget
      rw [hsk] at hget
      exact absurd hget (by simp)
    · rw [cache_get_some st _ now te hsk] at hget
      by_cases hfr : ((now : ℤ) - (te.1 : ℤ) < (CACHE_TIME_IN_SEC : ℤ) * 1000)
      · rw [if_pos hfr] at hget
        refine ⟨te.1, e, ?_, hr.symm⟩
        rw [← hst, hsk]
        simp only [Option.some.injEq] at hget
        rw [← hget, Prod.mk.eta]
      · rw [if_neg hfr] at hget
        exact absurd hget (by simp)

/-- C5: two renders of the same key, the second arriving while the cache
entry produced (or reused) by the first is still within the TTL window,
return byte-identical payloads and identical `etag` header values, and
the second request leaves the cache state untouched (no recomputation:
the record selection of the second request is irrelevant). -/
theorem render_idempotent_within_ttl
    (hash : String → String) (fd : ℕ → String)
    (decode : List ℕ → ℕ × ℕ) (resize_encode : List ℕ → ℕ → ℕ → List ℕ)
    (file_store : String → List ℕ) (row1 row2 : Option ImageRecord)
    (t1 t2 : ℕ) (st0 st1 st2 : CacheState) (w h : ℤ) (m : Mode)
    (r1 r2 : RenderResponse)
    (h1 : handle hash fd decode resize_encode file_store row1 t1 st0 w h m
      = Except.ok (r1, st1))
    (h2 : handle hash fd decode resize_encode file_store row2 t2 st1 w h m
      = Except.ok (r2, st2))
    (hfresh : ∀ t0 e, st1 (cache_key (clamp_dim w).toNat (clamp_dim h).toNat m)
      = some (t0, e) → (t2 : ℤ) - (t0 : ℤ) < (CACHE_TIME_IN_SEC : ℤ) * 1000) :
    r2.payload = r1.payload ∧
    getHeader r2.headers "etag" = getHeader r1.headers "etag" ∧
    st2 = st1 := by
  obtain ⟨t0, e, hst1, hr1⟩ := handle_ok_entry h1
  have hget2 : cache_get st1 (cache_key (clamp_dim w).toNat (clamp_dim h).toNat m) t2
      = some e := by
    rw [cache_get_some st1 _ t2 (t0, e) hst1]
    exact if_pos (hfresh t0 e hst1)
  simp only [handle] at h2
  rw [hget2] at h2
  simp only [Except.ok.injEq, Prod.mk.injEq] at h2
  obtain ⟨hr2, hst2⟩ := h2
  subst hr1
  rw [← hr2]
  refine ⟨rfl, ?_, hst2.symm⟩
  rw [respond_etag, respond_etag]

/-- Witness for C5: a miss at time 0 followed by a hit at time 1000 on
the key `0x0`, `stretch`. -/
theorem render_idempotent_within_ttl_witness :
    (respond id fd0 1000 0 0 entry0).payload = (respond id fd0 0 0 0 entry0).payload ∧
    getHeader (respond id fd0 1000 0 0 entry0).headers "etag"
      = getHeader (respond id fd0 0 0 0 entry0).headers "etag" ∧
    st1con = st1con := by
  refine render_idempotent_within_ttl id fd0 decode0 resize_encode0 file_store0
    (some rec0) (some rec0) 0 1000 empty_cache st1con st1con 0 0 Mode.stretch
    (respond id fd0 0 0 0 entry0) (respond id fd0 1000 0 0 entry0) rfl rfl ?_
  intro t0 e he
  have he2 : some ((0 : ℕ), entry0) = some (t0, e) := by
    rw [← he]
    rfl
  simp only [Option.some.injEq, Prod.mk.injEq] at he2
  obtain ⟨ht0, _⟩ := he2
  rw [← ht0]
  decide

/-! ## The memoizing cache decorator -/

theorem cached_func_step_frame {K V : Type} [DecidableEq K] (timeout : ℕ)
    (truthy : V → Bool) (fresh_result : V) (key : K) (call_time : ℕ)
    (store : K → List (ℕ × V)) (k : K) (hk : k ≠ key) :
    (cached_func_step timeout truthy fresh_result key call_time store).2 k = store k := by
  simp only [cached_func_step]
  cases hgl : ((store key).filter
      (fun e => decide ((call_time : ℤ) - (e.1 : ℤ) < (timeout : ℤ)))).getLast? with
  | none => simp [hk]
  | some last =>
    by_cases ht : truthy last.2 = true <;> simp [ht, hk]

theorem cached_func_step_at_key {K V : Type} [DecidableEq K] (timeout : ℕ)
    (truthy : V → Bool) (fresh_result : V) (key : K) (call_time : ℕ)
    (store : K → List (ℕ × V)) :
    (cached_func_step timeout truthy fresh_result key call_time store).2 key
      = (match ((store key).filter
          (fun e => decide ((call_time : ℤ) - (e.1 : ℤ) < (timeout : ℤ)))).getLast? with
        | some last =>
            if truthy last.2
            then (store key).filter
              (fun e => decide ((call_time : ℤ) - (e.1 : ℤ) < (timeout : ℤ)))
            else dict_insert ((store key).filter
              (fun e => decide ((call_time : ℤ) - (e.1 : ℤ) < (timeout : ℤ))))
              call_time fresh_result
        | none => dict_insert ((store key).filter
            (fun e => decide ((call_time : ℤ) - (e.1 : ℤ) < (timeout : ℤ))))
            call_time fresh_result) := by
  simp only [cached_func_step]
  cases hgl : ((store key).filter
      (fun e => decide ((call_time : ℤ) - (e.1 : ℤ) < (timeout : ℤ)))).getLast? with
  | none => simp
  | some last =>
    by_cases ht : truthy last.2 = true <;> simp [ht]

/-- C7 amended: a lookup of the decorator cache at `call_time`: a fresh
entry (age strictly below the timeout) holding a truthy value is returned
as a hit with the store unchanged; an entry at or past the timeout is
removed during the same call and the freshly computed result is stored in
its place; and no key other than the queried key is read, modified or
evicted.  (Fresh entries holding falsy values are not returned — see the
counterexample.) -/
theorem zcache_lookup_spec {K V : Type} [DecidableEq K] (timeout : ℕ)
    (truthy : V → Bool) (fresh_result : V) (key : K) (call_time t : ℕ) (v : V)
    (store : K → List (ℕ × V)) (hkey : store key = [(t, v)]) :
    ((call_time : ℤ) - (t : ℤ) < (timeout : ℤ) → truthy v = true →
      cached_func_step timeout truthy fresh_result key call_time store = (v, store)) ∧
    ((timeout : ℤ) ≤ (call_time : ℤ) - (t : ℤ) →
      (cached_func_step timeout truthy fresh_result key call_time store).1 = fresh_result ∧
      (cached_func_step timeout truthy fresh_result key call_time store).2 key
        = [(call_time, fresh_result)]) ∧
    (∀ k, k ≠ key →
      (cached_func_step timeout truthy fresh_result key call_time store).2 k = store k) := by
  refine ⟨?_, ?_, fun k hk => cached_func_step_frame timeout truthy fresh_result key
    call_time store k hk⟩
  · intro hfr htr
    have hstep : cached_func_step timeout truthy fresh_result key call_time store
        = (v, fun k => if k = key then [(t, v)] else store k) := by
      simp [cached_func_step, hkey, hfr, htr]
    rw [hstep]
    refine congrArg (Prod.mk v) (funext fun k => ?_)
    by_cases hk : k = key
    · rw [if_pos hk, hk, hkey]
    · rw [if_neg hk]
  · intro hstale
    have hfilter : ((store key).filter
        (fun e => decide ((call_time : ℤ) - (e.1 : ℤ) < (timeout : ℤ)))) = [] := by
      rw [hkey]
      simp [not_lt.mpr hstale]
    constructor
    · simp [cached_func_step, hfilter]
    · rw [cached_func_step_at_key, hfilter]
      simp [dict_insert]

/-- C7 counterexample: for key 0 the store holds the entry `(0, 0)` —
value 0 stored at time 0 — and the lookup happens at time 1 with timeout
10, so the entry exists and its age is below the timeout; yet the call
does not return the cached value: it recomputes (returning the fresh
result 5 ≠ 0) and stores it alongside the still-fresh entry, because the
decorator tests the cached value with Python truthiness (`if result:`)
and 0 is falsy. -/
theorem zcache_fresh_falsy_recomputed :
    (cached_func_step 10 int_truthy (5 : ℤ) (0 : ℕ) 1 store_falsy).1 = 5 ∧
    ((5 : ℤ) ≠ 0) ∧
    (cached_func_step 10 int_truthy (5 : ℤ) (0 : ℕ) 1 store_falsy).2 0
      = [(0, 0), (1, 5)] := by
  refine ⟨by decide, by decide, by decide⟩

/-- Witness for C7 (amended): a fresh truthy entry is returned as a hit
with the store unchanged. -/
theorem zcache_lookup_spec_witness :
    cached_func_step 10 int_truthy (9 : ℤ) (0 : ℕ) 5 store_truthy = (7, store_truthy) :=
  (zcache_lookup_spec 10 int_truthy (9 : ℤ) (0 : ℕ) 5 2 (7 : ℤ) store_truthy rfl).1
    (by decide) (by decide)

/-- C8 amended: at most one entry per key is an invariant of the
decorator store provided the wrapped function returns only truthy
values: each step preserves "every key holds at most one entry, all of
them truthy".  (Falsy results break the invariant — see the
counterexample.) -/
theorem zcache_single_entry_invariant {K V : Type} [DecidableEq K] (timeout : ℕ)
    (truthy : V → Bool) (fresh_result : V) (key : K) (call_time : ℕ)
    (store : K → List (ℕ × V))
    (hlen : ∀ k, (store k).length ≤ 1)
    (hval : ∀ k t v, (t, v) ∈ store k → truthy v = true)
    (hfr : truthy fresh_result = true) :
    ∀ k, (((cached_func_step timeout truthy fresh_result key call_time store).2) k).length ≤ 1
      ∧ (∀ t v, (t, v) ∈ ((cached_func_step timeout truthy fresh_result key call_time store).2) k
          → truthy v = true) := by
  intro k
  by_cases hk : k = key
  · subst hk
    rw [cached_func_step_at_key]
    rcases hsl : store k with _ | ⟨⟨ta, va⟩, rest⟩
    · simp [dict_insert]
      exact hfr
    · have hrest : rest = [] := by
        have hl := hlen k
        rw [hsl] at hl
        simpa using hl
      subst hrest
      have hva : truthy va = true := hval k ta va (by rw [hsl]; exact List.mem_singleton.mpr rfl)
      by_cases hfrsh : ((call_time : ℤ) - (ta : ℤ) < (timeout : ℤ))
      · simp [hsl, hfrsh, hva, dict_insert]
      · simp [hsl, hfrsh, dict_insert]
        exact hfr
  · rw [cached_func_step_frame timeout truthy fresh_result key call_time store k hk]
    exact ⟨hlen k, fun t v hm => hval k t v hm⟩

/-- C8 counterexample: with the falsy result 0 and timeout 10, calls at
times 0 and 1 leave TWO simultaneous entries for key 0 in the store: the
second call finds the fresh falsy entry, recomputes, and appends rather
than replaces. -/
theorem zcache_two_entries_accumulate :
    ((cached_func_step 10 int_truthy (0 : ℤ) (0 : ℕ) 1
        ((cached_func_step 10 int_truthy (0 : ℤ) (0 : ℕ) 0 (fun _ => [])).2)).2 0)
      = [(0, 0), (1, 0)] ∧
    ((cached_func_step 10 int_truthy (0 : ℤ) (0 : ℕ) 1
        ((cached_func_step 10 int_truthy (0 : ℤ) (0 : ℕ) 0 (fun _ => [])).2)).2 0).length = 2 := by
  refine ⟨by decide, by decide⟩

/-- Witness for C8 (amended): starting from the empty store with a truthy
result, after one step key 0 holds at most one entry. -/
theorem zcache_single_entry_invariant_witness :
    ((cached_func_step 10 int_truthy (1 : ℤ) (0 : ℕ) 0 (fun _ => [])).2 0).length ≤ 1 := by
  have h := zcache_single_entry_invariant 10 int_truthy (1 : ℤ) (0 : ℕ) 0 (fun _ => [])
    (fun k => by simp) (fun k t v hm => by simp at hm) (by decide)
  exact (h 0).1

/-- C9: the scaler is a pure function of the stored file's bytes, the
target dimensions and the mode: two invocations over (possibly
different) file stores and names backed by identical bytes produce
identical encoded buffers; and the scaler touches no cache — in the
handler, the cache state is either returned untouched (hit) or updated
only by the handler's own `cache_set` with the scaler's output (miss). -/
theorem scaler_pure_no_cache (decode : List ℕ → ℕ × ℕ)
    (resize_encode : List ℕ → ℕ → ℕ → List ℕ)
    (fs1 fs2 : String → List ℕ) (f1 f2 : String) (tw th : ℕ) (m : Mode)
    (hbytes : fs1 f1 = fs2 f2) :
    create_scaled_image decode resize_encode fs1 tw th m f1
      = create_scaled_image decode resize_encode fs2 tw th m f2 ∧
    (∀ (hash : String → String) (fd : ℕ → String) (row : Option ImageRecord)
      (now : ℕ) (st : CacheState) (w h : ℤ) (mm : Mode) (r : RenderResponse)
      (st' : CacheState),
      handle hash fd decode resize_encode fs1 row now st w h mm = Except.ok (r, st') →
      st' = st ∨ ∃ rec, row = some rec ∧
        st' = cache_set st (cache_key (clamp_dim w).toNat (clamp_dim h).toNat mm) now
          ⟨rec.filename, rec.created, now, rec.filename_oryginal,
            create_scaled_image decode resize_encode fs1 (clamp_dim w).toNat
              (clamp_dim h).toNat mm rec.filename⟩) := by
  constructor
  · simp only [create_scaled_image, hbytes]
  · intro hash fd row now st w h mm r st' hok
    simp only [handle] at hok
    rcases hget : cache_get st (cache_key (clamp_dim w).toNat (clamp_dim h).toNat mm) now
      with _ | e
    · rw [hget] at hok
      rcases row with _ | rec
      · exact absurd hok (by simp)
      · simp only [Except.ok.injEq, Prod.mk.injEq] at hok
        exact Or.inr ⟨rec, rfl, hok.2.symm⟩
    · rw [hget] at hok
      simp only [Except.ok.injEq, Prod.mk.injEq] at hok
      exact Or.inl hok.2.symm

/-- Witness for C9: two file names backed by the same bytes scale
identically. -/
theorem scaler_pure_no_cache_witness :
    create_scaled_image decode0 resize_encode0 file_store1 3 4 Mode.auto "a"
      = create_scaled_image decode0 resize_encode0 file_store1 3 4 Mode.auto "b" :=
  (scaler_pure_no_cache decode0 resize_encode0 file_store1 file_store1 "a" "b" 3 4
    Mode.auto rfl).1

/-- Witness for C3 (amended): a width of 9000 is served (mode `auto`),
not rejected. -/
theorem dims_clamped_never_rejected_witness :
    (handle id fd0 decode0 resize_encode0 file_store0 (some rec0) 0 empty_cache
      9000 100 Mode.auto).isOk = true :=
  (dims_clamped_never_rejected id fd0 decode0 resize_encode0 file_store0 rec0 0
    empty_cache 9000 100 Mode.auto).2.2.2.2.2

/-- Witness for C4: the spec's key-distinctness scenario — `(100, 100,
stretch)` and `(100, 100, auto)` do not collide. -/
theorem cache_key_deterministic_injective_witness :
    cache_key 100 100 Mode.stretch ≠ cache_key 100 100 Mode.auto := by
  intro h
  have hc := (cache_key_deterministic_injective 100 100 Mode.stretch 100 100 Mode.auto).mp h
  exact absurd hc.2.2 (by decide)
